import Mathlib

/-!
Shallow embedding of the FamilyWallet Soroban contract
(src/family_wallet/src/lib.rs) of the Remitwise-Contracts repository.

Addresses are modelled as natural numbers (opaque identities compared only
for equality in the source). The contract's i128 spending limits are
modelled as Int: the code never performs arithmetic on them, only
comparisons and stores, so no overflow wrapping can be observed.

The three instance-storage slots OWNER, MEMBERS and ADDRS become the three
fields of WalletState, each an Option because a slot can be absent.
Soroban's Map is modelled as an association list with get/set/contains
operations; the contract never iterates the map itself (enumeration walks
the ADDRS vector), so the map's internal key ordering is unobservable.

A panic (fatal abort, no partial state) is modelled as Except.error
carrying the error kind; require_auth failure is the AuthDenied kind,
distinct from the contract's own Unauthorized panic. The identity
verifier is modelled as a predicate auth : Address -> Bool passed to each
entry point. Event publication is modelled by returning the list of
(event, address) pairs a successful call emits. TTL extension
(extend_instance_ttl) has no observable effect on the modelled state and
is elided.
-/

abbrev Address := Nat

/-- Mirrors struct FamilyMember (lib.rs lines 13-18). -/
structure FamilyMember where
  address : Address
  name : String
  spending_limit : Int
  role : String
deriving DecidableEq

/-- Mirrors enum FamilyWalletEvent (lib.rs lines 23-27). -/
inductive FamilyWalletEvent where
  | MemberAdded
  | MemberUpdated
  | SpendingLimitUpdated
deriving DecidableEq

/-- Error kinds for the fatal aborts of the contract. AuthDenied models a
host-level require_auth failure; the other four are the contract's own
panics: "Wallet already initialized", the .expect on a missing OWNER slot,
the two "Only the owner can ..." panics, and "Spending limit must be
positive". -/
inductive ContractError where
  | AuthDenied
  | AlreadyInitialized
  | NotInitialized
  | Unauthorized
  | InvalidInput
deriving DecidableEq

/-- The three instance-storage slots OWNER, MEMBERS, ADDRS. -/
structure WalletState where
  owner : Option Address
  members : Option (List (Address × FamilyMember))
  addrs : Option (List Address)
deriving DecidableEq

/-- The state before any call: every storage slot absent. -/
def emptyState : WalletState := WalletState.mk none none none

/-- Soroban Map.get on the association-list model. -/
def mapGet (m : List (Address × FamilyMember)) (a : Address) : Option FamilyMember :=
  match m with
  | [] => none
  | (k, v) :: rest => if k = a then some v else mapGet rest a

/-- Soroban Map.set on the association-list model: overwrite in place if
the key exists, append otherwise. -/
def mapSet (m : List (Address × FamilyMember)) (a : Address) (v : FamilyMember) :
    List (Address × FamilyMember) :=
  match m with
  | [] => [(a, v)]
  | (k, w) :: rest => if k = a then (k, v) :: rest else (k, w) :: mapSet rest a v

/-- Soroban Map.contains_key. -/
def mapContains (m : List (Address × FamilyMember)) (a : Address) : Bool :=
  (mapGet m a).isSome

/-- The result of a contract call: an error kind on fatal abort (no state
survives an abort), or the returned value together with the post state and
the events published. -/
abbrev CallResult (α : Type) :=
  Except ContractError (α × WalletState × List (FamilyWalletEvent × Address))

/-- Embeds pub fn initialize (lib.rs lines 45-76): require_auth on the
owner argument, abort with AlreadyInitialized if the OWNER slot is
occupied, otherwise store the owner and an empty members map and an empty
addresses vector, returning true. No event is published. -/
def initWallet (auth : Address → Bool) (owner : Address) (s : WalletState) :
    CallResult Bool :=
  if auth owner = false then .error ContractError.AuthDenied
  else if (s.owner).isSome then .error ContractError.AlreadyInitialized
  else .ok (true, WalletState.mk (some owner) (some []) (some []), [])

/-- Embeds pub fn add_member (lib.rs lines 95-172): require_auth, abort
NotInitialized if the OWNER slot is absent, abort Unauthorized if the
caller is not the stored owner, abort InvalidInput if the limit is not
positive, then upsert the member, append the address to ADDRS only when it
is new, and publish MemberUpdated or MemberAdded accordingly. Note the
source validates only the spending limit; it has no emptiness check on
name or role despite its doc comment. -/
def add_member (auth : Address → Bool) (owner address : Address) (name : String)
    (spending_limit : Int) (role : String) (s : WalletState) :
    CallResult Bool :=
  if auth owner = false then .error ContractError.AuthDenied
  else
    match s.owner with
    | none => .error ContractError.NotInitialized
    | some stored_owner =>
      if stored_owner ≠ owner then .error ContractError.Unauthorized
      else if spending_limit ≤ 0 then .error ContractError.InvalidInput
      else
        let members := s.members.getD []
        let addresses := s.addrs.getD []
        let is_update := mapContains members address
        let member : FamilyMember := FamilyMember.mk address name spending_limit role
        let members' := mapSet members address member
        let addresses' := if is_update then addresses else addresses ++ [address]
        let event := if is_update then FamilyWalletEvent.MemberUpdated
                     else FamilyWalletEvent.MemberAdded
        .ok (true, WalletState.mk s.owner (some members') (some addresses'),
             [(event, address)])

/-- Embeds pub fn get_member (lib.rs lines 181-189): a pure read with no
authorization and no writes; an absent MEMBERS slot reads as an empty map. -/
def get_member (s : WalletState) (address : Address) : Option FamilyMember :=
  mapGet (s.members.getD []) address

/-- Embeds pub fn get_all_members (lib.rs lines 195-217): a pure read that
walks the ADDRS vector in order and collects each address's record from
the MEMBERS map, skipping addresses with no record. Absent slots read as
empty. -/
def get_all_members (s : WalletState) : List FamilyMember :=
  (s.addrs.getD []).filterMap (fun a => mapGet (s.members.getD []) a)

/-- Embeds pub fn update_spending_limit (lib.rs lines 233-287):
require_auth, abort NotInitialized / Unauthorized / InvalidInput as in
add_member (the limit validation precedes the member lookup), then return
false with no state change if the address has no record, else overwrite
that record's spending_limit and publish SpendingLimitUpdated. -/
def update_spending_limit (auth : Address → Bool) (owner address : Address)
    (new_limit : Int) (s : WalletState) : CallResult Bool :=
  if auth owner = false then .error ContractError.AuthDenied
  else
    match s.owner with
    | none => .error ContractError.NotInitialized
    | some stored_owner =>
      if stored_owner ≠ owner then .error ContractError.Unauthorized
      else if new_limit ≤ 0 then .error ContractError.InvalidInput
      else
        match mapGet (s.members.getD []) address with
        | none => .ok (false, s, [])
        | some m =>
          .ok (true, WalletState.mk s.owner
                 (some (mapSet (s.members.getD []) address
                   (FamilyMember.mk m.address m.name new_limit m.role)))
                 s.addrs,
               [(FamilyWalletEvent.SpendingLimitUpdated, address)])

/-- Embeds pub fn check_spending_limit (lib.rs lines 297-308): a pure read
returning whether the address has a record and the amount is at most its
spending limit (inclusive). -/
def check_spending_limit (s : WalletState) (address : Address) (amount : Int) : Bool :=
  match mapGet (s.members.getD []) address with
  | some member => amount ≤ member.spending_limit
  | none => false

/-- States reachable from the empty storage by any sequence of successful
mutating calls (the reads never write). -/
inductive Reachable : WalletState → Prop where
  | start : Reachable emptyState
  | step_init (auth : Address → Bool) (owner : Address) (s : WalletState)
      (b : Bool) (s' : WalletState) (ev : List (FamilyWalletEvent × Address))
      (h : Reachable s) (hs : initWallet auth owner s = .ok (b, s', ev)) :
      Reachable s'
  | step_add (auth : Address → Bool) (owner address : Address) (name : String)
      (limit : Int) (role : String) (s : WalletState)
      (b : Bool) (s' : WalletState) (ev : List (FamilyWalletEvent × Address))
      (h : Reachable s) (hs : add_member auth owner address name limit role s = .ok (b, s', ev)) :
      Reachable s'
  | step_update (auth : Address → Bool) (owner address : Address) (limit : Int)
      (s : WalletState)
      (b : Bool) (s' : WalletState) (ev : List (FamilyWalletEvent × Address))
      (h : Reachable s) (hs : update_spending_limit auth owner address limit s = .ok (b, s', ev)) :
      Reachable s'

/-- Every stored member has a strictly positive spending limit. -/
def limitsPositive (s : WalletState) : Prop :=
  ∀ a m, mapGet (s.members.getD []) a = some m → 0 < m.spending_limit

/-- The MEMBERS key set and the ADDRS vector track the same addresses. -/
def keysMatchAddrs (s : WalletState) : Prop :=
  ∀ a, (mapGet (s.members.getD []) a).isSome = true ↔ a ∈ s.addrs.getD []

/-- Each stored record's address field equals its map key. -/
def addrFieldMatchesKey (s : WalletState) : Prop :=
  ∀ a m, mapGet (s.members.getD []) a = some m → m.address = a

/-- The combined data-model invariant of section 3 of the design. -/
def WalletInv (s : WalletState) : Prop :=
  limitsPositive s ∧ keysMatchAddrs s ∧ addrFieldMatchesKey s ∧
    (s.addrs.getD []).Nodup

theorem mapGet_mapSet (m : List (Address × FamilyMember)) (a x : Address)
    (v : FamilyMember) :
    mapGet (mapSet m a v) x = if x = a then some v else mapGet m x := by
  induction m with
  | nil =>
    by_cases hxa : x = a
    · simp [mapSet, mapGet, hxa]
    · have hax : ¬a = x := by intro h; exact hxa h.symm
      simp [mapSet, mapGet, hax, hxa]
  | cons hd tl ih =>
    obtain ⟨k, w⟩ := hd
    by_cases hka : k = a
    · by_cases hxk : x = k
      · have hxa : x = a := hxk.trans hka
        simp [mapSet, mapGet, hka, hxk.symm, hxa]
      · have hkx : ¬k = x := by intro h; exact hxk h.symm
        have hxa : ¬x = a := by rw [← hka]; exact hxk
        have hax : ¬a = x := by intro h; exact hxa h.symm
        simp [mapSet, mapGet, hka, hkx, hxa, hax]
    · by_cases hkx : k = x
      · have hxa : ¬x = a := by rw [← hkx]; exact hka
        simp [mapSet, mapGet, hka, hkx, hxa]
      · simp [mapSet, mapGet, hka, hkx, ih]

theorem mapContains_isSome (m : List (Address × FamilyMember)) (a : Address) :
    mapContains m a = (mapGet m a).isSome := rfl

theorem mapContains_false_iff (m : List (Address × FamilyMember)) (a : Address) :
    mapContains m a = false ↔ mapGet m a = none := by
  cases hget : mapGet m a <;> simp [mapContains_isSome, hget]

theorem mapContains_true_iff (m : List (Address × FamilyMember)) (a : Address) :
    mapContains m a = true ↔ ∃ v, mapGet m a = some v := by
  cases hget : mapGet m a <;> simp [mapContains_isSome, hget]

theorem if_cond_false {α : Type} (a b : α) : (if false = true then a else b) = b := by
  simp

theorem if_cond_true {α : Type} (a b : α) : (if true = true then a else b) = a := by
  simp

theorem filterMap_full {α : Type} (l : List Address)
    (f : Address → Option α) (g : α → Address)
    (h : ∀ a, a ∈ l → ∃ v, f a = some v ∧ g v = a) :
    (l.filterMap f).map g = l := by
  induction l with
  | nil => simp
  | cons hd tl ih =>
    obtain ⟨v, hv, hgv⟩ := h hd (List.mem_cons_self hd tl)
    simp only [List.filterMap_cons, hv, List.map_cons, hgv]
    rw [ih (fun a ha => h a (List.mem_cons_of_mem hd ha))]

theorem walletInv_empty : WalletInv emptyState := by
  refine ⟨?_, ?_, ?_, ?_⟩
  · intro a m h
    simp [emptyState, mapGet] at h
  · intro a
    simp [emptyState, mapGet]
  · intro a m h
    simp [emptyState, mapGet] at h
  · simp [emptyState]

theorem initWallet_ok_shape (auth : Address → Bool) (owner : Address)
    (s : WalletState) (b : Bool) (s' : WalletState)
    (ev : List (FamilyWalletEvent × Address))
    (h : initWallet auth owner s = .ok (b, s', ev)) :
    b = true ∧ s' = WalletState.mk (some owner) (some []) (some []) ∧ ev = [] := by
  unfold initWallet at h
  split at h
  · exact absurd h (by simp)
  · split at h
    · exact absurd h (by simp)
    · simp only [Except.ok.injEq, Prod.mk.injEq] at h
      exact ⟨h.1.symm, h.2.1.symm, h.2.2.symm⟩

theorem walletInv_init (owner : Address) :
    WalletInv (WalletState.mk (some owner) (some []) (some [])) := by
  refine ⟨?_, ?_, ?_, ?_⟩
  · intro a m h
    simp [mapGet] at h
  · intro a
    simp [mapGet]
  · intro a m h
    simp [mapGet] at h
  · simp

theorem add_member_ok_shape (auth : Address → Bool) (owner address : Address)
    (name : String) (limit : Int) (role : String) (s : WalletState)
    (b : Bool) (s' : WalletState) (ev : List (FamilyWalletEvent × Address))
    (h : add_member auth owner address name limit role s = .ok (b, s', ev)) :
    b = true ∧ 0 < limit ∧ s.owner = some owner ∧
      s' = WalletState.mk s.owner
        (some (mapSet (s.members.getD []) address
          (FamilyMember.mk address name limit role)))
        (some (if mapContains (s.members.getD []) address then s.addrs.getD []
               else s.addrs.getD [] ++ [address])) ∧
      ev = [(if mapContains (s.members.getD []) address
             then FamilyWalletEvent.MemberUpdated else FamilyWalletEvent.MemberAdded,
             address)] := by
  unfold add_member at h
  split at h
  · simp at h
  · split at h
    · simp at h
    · rename_i stored_owner hso
      split at h
      · simp at h
      · rename_i hne
        split at h
        · simp at h
        · rename_i hle
          simp only [not_not] at hne
          simp only [Except.ok.injEq, Prod.mk.injEq] at h
          refine ⟨h.1.symm, by omega, by rw [hso, hne], h.2.1.symm, h.2.2.symm⟩

theorem update_ok_shape (auth : Address → Bool) (owner address : Address)
    (new_limit : Int) (s : WalletState)
    (b : Bool) (s' : WalletState) (ev : List (FamilyWalletEvent × Address))
    (h : update_spending_limit auth owner address new_limit s = .ok (b, s', ev)) :
    0 < new_limit ∧ s.owner = some owner ∧
      ((mapGet (s.members.getD []) address = none ∧ b = false ∧ s' = s ∧ ev = []) ∨
       (∃ m, mapGet (s.members.getD []) address = some m ∧ b = true ∧
         s' = WalletState.mk s.owner
           (some (mapSet (s.members.getD []) address
             (FamilyMember.mk m.address m.name new_limit m.role)))
           s.addrs ∧
         ev = [(FamilyWalletEvent.SpendingLimitUpdated, address)])) := by
  unfold update_spending_limit at h
  split at h
  · simp at h
  · split at h
    · simp at h
    · rename_i stored_owner hso
      split at h
      · simp at h
      · rename_i hne
        split at h
        · simp at h
        · rename_i hle
          simp only [not_not] at hne
          refine ⟨by omega, by rw [hso, hne], ?_⟩
          split at h
          · rename_i hget
            simp only [Except.ok.injEq, Prod.mk.injEq] at h
            exact Or.inl ⟨hget, h.1.symm, h.2.1.symm, h.2.2.symm⟩
          · rename_i m hget
            simp only [Except.ok.injEq, Prod.mk.injEq] at h
            exact Or.inr ⟨m, hget, h.1.symm, h.2.1.symm, h.2.2.symm⟩

theorem walletInv_add (auth : Address → Bool) (owner address : Address)
    (name : String) (limit : Int) (role : String) (s : WalletState)
    (b : Bool) (s' : WalletState) (ev : List (FamilyWalletEvent × Address))
    (hinv : WalletInv s)
    (h : add_member auth owner address name limit role s = .ok (b, s', ev)) :
    WalletInv s' := by
  obtain ⟨hlim, hkeys, haddr, hnodup⟩ := hinv
  obtain ⟨hb, hl, hso, hs', hev⟩ :=
    add_member_ok_shape auth owner address name limit role s b s' ev h
  subst hs'
  cases hc : mapContains (s.members.getD []) address with
  | false =>
    have hno : mapGet (s.members.getD []) address = none :=
      (mapContains_false_iff _ _).mp hc
    have hnotmem : address ∉ s.addrs.getD [] := by
      intro hmem
      rw [← hkeys address, hno] at hmem
      simp at hmem
    rw [if_cond_false]
    refine ⟨?_, ?_, ?_, ?_⟩
    · intro x m hx
      simp only [Option.getD_some] at hx
      rw [mapGet_mapSet] at hx
      split at hx
      · cases hx
        exact hl
      · exact hlim x m hx
    · intro x
      simp only [Option.getD_some]
      rw [mapGet_mapSet]
      by_cases hx : x = address
      · subst hx
        simp
      · rw [if_neg hx, List.mem_append, List.mem_singleton]
        rw [hkeys x]
        simp [hx]
    · intro x m hx
      simp only [Option.getD_some] at hx
      rw [mapGet_mapSet] at hx
      split at hx
      · rename_i hxeq
        cases hx
        exact hxeq.symm
      · exact haddr x m hx
    · simp only [Option.getD_some]
      rw [List.nodup_append]
      refine ⟨hnodup, List.nodup_singleton address, ?_⟩
      intro x hxmem hxsing
      rw [List.mem_singleton] at hxsing
      subst hxsing
      exact hnotmem hxmem
  | true =>
    obtain ⟨v, hv⟩ := (mapContains_true_iff _ _).mp hc
    have hmem : address ∈ s.addrs.getD [] := by
      rw [← hkeys address, hv]
      simp
    rw [if_cond_true]
    refine ⟨?_, ?_, ?_, ?_⟩
    · intro x m hx
      simp only [Option.getD_some] at hx
      rw [mapGet_mapSet] at hx
      split at hx
      · cases hx
        exact hl
      · exact hlim x m hx
    · intro x
      simp only [Option.getD_some]
      rw [mapGet_mapSet]
      by_cases hx : x = address
      · subst hx
        simp [hmem]
      · rw [if_neg hx]
        exact hkeys x
    · intro x m hx
      simp only [Option.getD_some] at hx
      rw [mapGet_mapSet] at hx
      split at hx
      · rename_i hxeq
        cases hx
        exact hxeq.symm
      · exact haddr x m hx
    · simp only [Option.getD_some]
      exact hnodup

theorem walletInv_update (auth : Address → Bool) (owner address : Address)
    (new_limit : Int) (s : WalletState)
    (b : Bool) (s' : WalletState) (ev : List (FamilyWalletEvent × Address))
    (hinv : WalletInv s)
    (h : update_spending_limit auth owner address new_limit s = .ok (b, s', ev)) :
    WalletInv s' := by
  obtain ⟨hlim, hkeys, haddr, hnodup⟩ := hinv
  obtain ⟨hl, hso, hcase⟩ := update_ok_shape auth owner address new_limit s b s' ev h
  rcases hcase with ⟨-, -, hs', -⟩ | ⟨m, hget, -, hs', -⟩
  · subst hs'
    exact ⟨hlim, hkeys, haddr, hnodup⟩
  · subst hs'
    have hmaddr : m.address = address := haddr address m hget
    refine ⟨?_, ?_, ?_, ?_⟩
    · intro x mm hx
      simp only [Option.getD_some] at hx
      rw [mapGet_mapSet] at hx
      split at hx
      · cases hx
        exact hl
      · exact hlim x mm hx
    · intro x
      simp only [Option.getD_some]
      rw [mapGet_mapSet]
      by_cases hx : x = address
      · subst hx
        have hmem : x ∈ s.addrs.getD [] := by
          rw [← hkeys x, hget]
          simp
        simp [hmem]
      · simp only [hx, if_neg hx]
        exact hkeys x
    · intro x mm hx
      simp only [Option.getD_some] at hx
      rw [mapGet_mapSet] at hx
      split at hx
      · rename_i hxeq
        cases hx
        rw [hmaddr, hxeq]
      · exact haddr x mm hx
    · exact hnodup

theorem get_all_members_map_address (s : WalletState) (hinv : WalletInv s) :
    (get_all_members s).map FamilyMember.address = s.addrs.getD [] := by
  obtain ⟨-, hkeys, haddr, -⟩ := hinv
  unfold get_all_members
  apply filterMap_full
  intro a ha
  have hsome : (mapGet (s.members.getD []) a).isSome = true := (hkeys a).mpr ha
  cases hget : mapGet (s.members.getD []) a with
  | none =>
    rw [hget] at hsome
    simp at hsome
  | some m => exact ⟨m, rfl, haddr a m hget⟩

theorem initWallet_eval_fresh (auth : Address → Bool) (ow : Address) (s : WalletState)
    (hauth : auth ow = true) (hnone : s.owner = none) :
    initWallet auth ow s = .ok (true, WalletState.mk (some ow) (some []) (some []), []) := by
  unfold initWallet
  split
  · rename_i hfalse
    rw [hauth] at hfalse
    simp at hfalse
  · split
    · rename_i hsome
      rw [hnone] at hsome
      simp at hsome
    · rfl

theorem initWallet_eval_again (auth : Address → Bool) (ow o0 : Address) (s : WalletState)
    (hauth : auth ow = true) (hsome : s.owner = some o0) :
    initWallet auth ow s = .error ContractError.AlreadyInitialized := by
  unfold initWallet
  split
  · rename_i hfalse
    rw [hauth] at hfalse
    simp at hfalse
  · split
    · rfl
    · rename_i hno
      rw [hsome] at hno
      simp at hno

theorem add_member_eval_ok (auth : Address → Bool) (ow target : Address)
    (nm : String) (limit : Int) (rl : String) (s : WalletState)
    (hauth : auth ow = true) (hown : s.owner = some ow) (hlim : 0 < limit) :
    add_member auth ow target nm limit rl s =
      .ok (true,
        WalletState.mk s.owner
          (some (mapSet (s.members.getD []) target
            (FamilyMember.mk target nm limit rl)))
          (some (if mapContains (s.members.getD []) target then s.addrs.getD []
                 else s.addrs.getD [] ++ [target])),
        [(if mapContains (s.members.getD []) target
          then FamilyWalletEvent.MemberUpdated else FamilyWalletEvent.MemberAdded,
          target)]) := by
  unfold add_member
  split
  · rename_i hfalse
    rw [hauth] at hfalse
    simp at hfalse
  · split
    · rename_i hno
      rw [hown] at hno
      simp at hno
    · rename_i stored_owner hso
      rw [hown] at hso
      injection hso with hso
      subst hso
      split
      · rename_i hne
        exact absurd rfl hne
      · split
        · rename_i hle
          omega
        · rfl

theorem add_member_eval_unauth (auth : Address → Bool) (caller ow target : Address)
    (nm : String) (limit : Int) (rl : String) (s : WalletState)
    (hauth : auth caller = true) (hown : s.owner = some ow) (hne : caller ≠ ow) :
    add_member auth caller target nm limit rl s = .error ContractError.Unauthorized := by
  unfold add_member
  split
  · rename_i hfalse
    rw [hauth] at hfalse
    simp at hfalse
  · split
    · rename_i hno
      rw [hown] at hno
      simp at hno
    · rename_i stored_owner hso
      rw [hown] at hso
      injection hso with hso
      subst hso
      split
      · rfl
      · rename_i hnene
        rw [not_not] at hnene
        exact absurd hnene.symm hne

theorem add_member_eval_invalid (auth : Address → Bool) (ow target : Address)
    (nm : String) (limit : Int) (rl : String) (s : WalletState)
    (hauth : auth ow = true) (hown : s.owner = some ow) (hle : limit ≤ 0) :
    add_member auth ow target nm limit rl s = .error ContractError.InvalidInput := by
  unfold add_member
  split
  · rename_i hfalse
    rw [hauth] at hfalse
    simp at hfalse
  · split
    · rename_i hno
      rw [hown] at hno
      simp at hno
    · rename_i stored_owner hso
      rw [hown] at hso
      injection hso with hso
      subst hso
      rw [if_neg (show ¬(ow ≠ ow) from fun hh => hh rfl)]

theorem update_eval_unauth (auth : Address → Bool) (caller ow target : Address)
    (new_limit : Int) (s : WalletState)
    (hauth : auth caller = true) (hown : s.owner = some ow) (hne : caller ≠ ow) :
    update_spending_limit auth caller target new_limit s =
      .error ContractError.Unauthorized := by
  unfold update_spending_limit
  split
  · rename_i hfalse
    rw [hauth] at hfalse
    simp at hfalse
  · split
    · rename_i hno
      rw [hown] at hno
      simp at hno
    · rename_i stored_owner hso
      rw [hown] at hso
      injection hso with hso
      subst hso
      split
      · rfl
      · rename_i hnene
        rw [not_not] at hnene
        exact absurd hnene.symm hne

theorem update_eval_invalid (auth : Address → Bool) (ow target : Address)
    (new_limit : Int) (s : WalletState)
    (hauth : auth ow = true) (hown : s.owner = some ow) (hle : new_limit ≤ 0) :
    update_spending_limit auth ow target new_limit s =
      .error ContractError.InvalidInput := by
  unfold update_spending_limit
  split
  · rename_i hfalse
    rw [hauth] at hfalse
    simp at hfalse
  · split
    · rename_i hno
      rw [hown] at hno
      simp at hno
    · rename_i stored_owner hso
      rw [hown] at hso
      injection hso with hso
      subst hso
      rw [if_neg (show ¬(ow ≠ ow) from fun hh => hh rfl)]

theorem update_eval_notfound (auth : Address → Bool) (ow target : Address)
    (new_limit : Int) (s : WalletState)
    (hauth : auth ow = true) (hown : s.owner = some ow) (hpos : 0 < new_limit)
    (habs : mapGet (s.members.getD []) target = none) :
    update_spending_limit auth ow target new_limit s = .ok (false, s, []) := by
  unfold update_spending_limit
  split
  · rename_i hfalse
    rw [hauth] at hfalse
    simp at hfalse
  · split
    · rename_i hno
      rw [hown] at hno
      simp at hno
    · rename_i stored_owner hso
      rw [hown] at hso
      injection hso with hso
      subst hso
      split
      · rename_i hne
        exact absurd rfl hne
      · split
        · rename_i hle
          omega
        · split
          · rfl
          · rename_i m hget
            rw [habs] at hget
            simp at hget

theorem update_eval_found (auth : Address → Bool) (ow target : Address)
    (new_limit : Int) (s : WalletState) (m0 : FamilyMember)
    (hauth : auth ow = true) (hown : s.owner = some ow) (hpos : 0 < new_limit)
    (hget : mapGet (s.members.getD []) target = some m0) :
    update_spending_limit auth ow target new_limit s =
      .ok (true,
        WalletState.mk s.owner
          (some (mapSet (s.members.getD []) target
            (FamilyMember.mk m0.address m0.name new_limit m0.role)))
          s.addrs,
        [(FamilyWalletEvent.SpendingLimitUpdated, target)]) := by
  unfold update_spending_limit
  split
  · rename_i hfalse
    rw [hauth] at hfalse
    simp at hfalse
  · split
    · rename_i hno
      rw [hown] at hno
      simp at hno
    · rename_i stored_owner hso
      rw [hown] at hso
      injection hso with hso
      subst hso
      split
      · rename_i hne
        exact absurd rfl hne
      · split
        · rename_i hle
          omega
        · split
          · rename_i hnone
            rw [hget] at hnone
            simp at hnone
          · rename_i m hm
            rw [hget] at hm
            injection hm with hm
            subst hm
            rfl

theorem reachable_walletInv (s : WalletState) (h : Reachable s) : WalletInv s := by
  induction h with
  | start => exact walletInv_empty
  | step_init auth owner s b s' ev h hs ih =>
    obtain ⟨-, hs', -⟩ := initWallet_ok_shape auth owner s b s' ev hs
    rw [hs']
    exact walletInv_init owner
  | step_add auth owner address name limit role s b s' ev h hs ih =>
    exact walletInv_add auth owner address name limit role s b s' ev ih hs
  | step_update auth owner address limit s b s' ev h hs ih =>
    exact walletInv_update auth owner address limit s b s' ev ih hs

def nameAlice : String := "Alice"

def roleParent : String := "parent"

def nameBob : String := "Bob"

def roleChild : String := "child"

def nameEmpty : String := ""

def roleEmpty : String := ""

/-- The state right after a first initialization by owner 0. -/
def state0 : WalletState := WalletState.mk (some 0) (some []) (some [])

def member1 : FamilyMember := FamilyMember.mk 1 nameAlice 5 roleParent

/-- state0 after the owner added member 1. -/
def state1 : WalletState :=
  WalletState.mk (some 0) (some [(1, member1)]) (some [1])

theorem reachable_state0 : Reachable state0 :=
  Reachable.step_init (fun _ => true) 0 emptyState true state0 [] Reachable.start rfl

theorem reachable_state1 : Reachable state1 :=
  Reachable.step_add (fun _ => true) 0 1 nameAlice 5 roleParent state0 true state1
    [(FamilyWalletEvent.MemberAdded, 1)] reachable_state0 rfl

/-- C1: check_spending_limit address amount is true exactly when the
stored members map holds a record for that address (get_member finds it)
whose spending_limit is at least amount; the inclusive boundary
(amount equal to the limit gives true) and false on every absent address
are instances of the equivalence. The operation is a pure read of the
state: it takes no authorization input and returns no new state. -/
theorem check_spending_limit_correct (s : WalletState) (address : Address)
    (amount : Int) :
    check_spending_limit s address amount = true ↔
      ∃ m, get_member s address = some m ∧ amount ≤ m.spending_limit := by
  unfold check_spending_limit get_member
  cases hget : mapGet (s.members.getD []) address with
  | none => simp
  | some m => simp

/-- C2: with the registry initialized (an owner is stored) and a caller
who passes identity verification but differs from the stored owner, both
mutating operations abort with the Unauthorized error, regardless of all
other arguments; an abort carries no post state, so nothing changes. -/
theorem non_owner_mutators_unauthorized (auth : Address → Bool)
    (caller ow target : Address) (nm : String) (limit new_limit : Int)
    (rl : String) (s : WalletState)
    (hauth : auth caller = true) (hown : s.owner = some ow) (hne : caller ≠ ow) :
    add_member auth caller target nm limit rl s =
      .error ContractError.Unauthorized ∧
    update_spending_limit auth caller target new_limit s =
      .error ContractError.Unauthorized :=
  ⟨add_member_eval_unauth auth caller ow target nm limit rl s hauth hown hne,
   update_eval_unauth auth caller ow target new_limit s hauth hown hne⟩

theorem non_owner_mutators_unauthorized_witness :
    add_member (fun _ => true) 2 1 nameBob 7 roleChild state1 =
      .error ContractError.Unauthorized ∧
    update_spending_limit (fun _ => true) 2 1 9 state1 =
      .error ContractError.Unauthorized :=
  non_owner_mutators_unauthorized (fun _ => true) 2 0 1 nameBob 7 9 roleChild state1
    rfl rfl (by decide)

/-- C3: the source doc comment of add_member promises a panic when name or
role is empty and the spec requires an InvalidInput abort, but the code
validates only the spending limit: an authorized owner call with empty
name and empty role succeeds, stores the member with the empty fields and
publishes MemberAdded. This theorem evaluates the embedding at that
failing input. -/
theorem add_member_accepts_empty_name_role :
    add_member (fun _ => true) 0 1 nameEmpty 5 roleEmpty state0 =
      .ok (true,
        WalletState.mk (some 0)
          (some [(1, FamilyMember.mk 1 nameEmpty 5 roleEmpty)]) (some [1]),
        [(FamilyWalletEvent.MemberAdded, 1)]) := rfl

/-- C4: add_member on an already-present identity is an in-place update:
on a reachable initialized state, called by the authorized owner with a
positive limit for a target that already has a record, it returns the same
true marker as a fresh add, publishes MemberUpdated rather than
MemberAdded, leaves the ordered address sequence exactly as it was (no
re-append), overwrites the stored record's name, limit and role, and the
enumeration afterwards lists the same addresses as before, among which the
target occurs exactly once, at its first-add position. -/
theorem add_member_upsert (auth : Address → Bool) (ow target : Address)
    (nm : String) (limit : Int) (rl : String) (s : WalletState)
    (m0 : FamilyMember)
    (hreach : Reachable s) (hauth : auth ow = true) (hown : s.owner = some ow)
    (hpresent : get_member s target = some m0) (hlim : 0 < limit) :
    add_member auth ow target nm limit rl s =
      .ok (true,
        WalletState.mk s.owner
          (some (mapSet (s.members.getD []) target
            (FamilyMember.mk target nm limit rl)))
          (some (s.addrs.getD [])),
        [(FamilyWalletEvent.MemberUpdated, target)]) ∧
    get_member (WalletState.mk s.owner
        (some (mapSet (s.members.getD []) target
          (FamilyMember.mk target nm limit rl)))
        (some (s.addrs.getD []))) target =
      some (FamilyMember.mk target nm limit rl) ∧
    (get_all_members (WalletState.mk s.owner
        (some (mapSet (s.members.getD []) target
          (FamilyMember.mk target nm limit rl)))
        (some (s.addrs.getD [])))).map FamilyMember.address = s.addrs.getD [] ∧
    List.count target (s.addrs.getD []) = 1 := by
  obtain ⟨hlimpos, hkeys, haddrf, hnodup⟩ := reachable_walletInv s hreach
  have hpres' : mapGet (s.members.getD []) target = some m0 := hpresent
  have hc : mapContains (s.members.getD []) target = true :=
    (mapContains_true_iff _ _).mpr ⟨m0, hpres'⟩
  have heval := add_member_eval_ok auth ow target nm limit rl s hauth hown hlim
  simp only [hc, if_cond_true] at heval
  have hmem : target ∈ s.addrs.getD [] := by
    rw [← hkeys target, hpres']
    simp
  refine ⟨heval, ?_, ?_, List.count_eq_one_of_mem hnodup hmem⟩
  · unfold get_member
    simp only [Option.getD_some]
    rw [mapGet_mapSet]
    simp
  · have hinv' := walletInv_add auth ow target nm limit rl s true
      (WalletState.mk s.owner
        (some (mapSet (s.members.getD []) target
          (FamilyMember.mk target nm limit rl)))
        (some (s.addrs.getD [])))
      [(FamilyWalletEvent.MemberUpdated, target)]
      ⟨hlimpos, hkeys, haddrf, hnodup⟩ heval
    have hmap := get_all_members_map_address _ hinv'
    simpa using hmap

theorem add_member_upsert_witness :
    add_member (fun _ => true) 0 1 nameBob 9 roleChild state1 =
      .ok (true,
        WalletState.mk state1.owner
          (some (mapSet (state1.members.getD []) 1
            (FamilyMember.mk 1 nameBob 9 roleChild)))
          (some (state1.addrs.getD [])),
        [(FamilyWalletEvent.MemberUpdated, 1)]) ∧
    get_member (WalletState.mk state1.owner
        (some (mapSet (state1.members.getD []) 1
          (FamilyMember.mk 1 nameBob 9 roleChild)))
        (some (state1.addrs.getD []))) 1 =
      some (FamilyMember.mk 1 nameBob 9 roleChild) ∧
    (get_all_members (WalletState.mk state1.owner
        (some (mapSet (state1.members.getD []) 1
          (FamilyMember.mk 1 nameBob 9 roleChild)))
        (some (state1.addrs.getD [])))).map FamilyMember.address =
      state1.addrs.getD [] ∧
    List.count 1 (state1.addrs.getD []) = 1 :=
  add_member_upsert (fun _ => true) 0 1 nameBob 9 roleChild state1 member1
    reachable_state1 rfl rfl rfl (by decide)

/-- C5: get_all_members is a pure read (no authorization input, no state
returned); on every reachable state its output lists exactly the stored
address sequence in order (so one entry per stored identity, no
duplicates, no gaps: an identity is enumerated iff it is stored), and on
the state produced by a first initialization it is the empty list rather
than an error. -/
theorem get_all_members_enumeration (s : WalletState) (a : Address)
    (auth2 : Address → Bool) (ow2 : Address) (b2 : Bool) (t2 : WalletState)
    (ev2 : List (FamilyWalletEvent × Address))
    (hreach : Reachable s)
    (hfresh : initWallet auth2 ow2 emptyState = .ok (b2, t2, ev2)) :
    (get_all_members s).map FamilyMember.address = s.addrs.getD [] ∧
    ((get_all_members s).map FamilyMember.address).Nodup ∧
    ((get_member s a).isSome = true ↔
      a ∈ (get_all_members s).map FamilyMember.address) ∧
    get_all_members t2 = [] := by
  obtain ⟨hlimpos, hkeys, haddrf, hnodup⟩ := reachable_walletInv s hreach
  have hmap := get_all_members_map_address s ⟨hlimpos, hkeys, haddrf, hnodup⟩
  obtain ⟨hb2, ht2, hev2⟩ := initWallet_ok_shape auth2 ow2 emptyState b2 t2 ev2 hfresh
  refine ⟨hmap, ?_, ?_, ?_⟩
  · rw [hmap]
    exact hnodup
  · rw [hmap]
    exact hkeys a
  · rw [ht2]
    rfl

theorem get_all_members_enumeration_witness :
    (get_all_members state1).map FamilyMember.address = state1.addrs.getD [] ∧
    ((get_all_members state1).map FamilyMember.address).Nodup ∧
    ((get_member state1 1).isSome = true ↔
      1 ∈ (get_all_members state1).map FamilyMember.address) ∧
    get_all_members state0 = [] :=
  get_all_members_enumeration state1 1 (fun _ => true) 0 true state0 []
    reachable_state1 rfl

/-- C6: for any non-positive limit, a call by the authorized owner on an
initialized registry makes add_member and update_spending_limit abort with
InvalidInput whatever the target identity's state (present or absent): the
limit validation precedes the existence lookup, so an invalid limit can
never produce the non-fatal false result. -/
theorem nonpositive_limit_invalid (auth : Address → Bool) (ow target : Address)
    (nm : String) (limit : Int) (rl : String) (s : WalletState)
    (hauth : auth ow = true) (hown : s.owner = some ow) (hle : limit ≤ 0) :
    add_member auth ow target nm limit rl s = .error ContractError.InvalidInput ∧
    update_spending_limit auth ow target limit s =
      .error ContractError.InvalidInput :=
  ⟨add_member_eval_invalid auth ow target nm limit rl s hauth hown hle,
   update_eval_invalid auth ow target limit s hauth hown hle⟩

theorem nonpositive_limit_invalid_witness :
    add_member (fun _ => true) 0 1 nameBob 0 roleChild state1 =
      .error ContractError.InvalidInput ∧
    update_spending_limit (fun _ => true) 0 1 0 state1 =
      .error ContractError.InvalidInput :=
  nonpositive_limit_invalid (fun _ => true) 0 1 nameBob 0 roleChild state1
    rfl rfl (by decide)

/-- C7: update_spending_limit by the authorized owner with a positive
limit on an identity that has no stored record returns false as an
ordinary value (not an abort), publishes no event, and the post state is
the input state itself, so the owner, the member map (hence its
cardinality) and the ordered sequence are all unchanged. -/
theorem update_absent_false_no_change (auth : Address → Bool)
    (ow target : Address) (new_limit : Int) (s : WalletState)
    (hauth : auth ow = true) (hown : s.owner = some ow) (hpos : 0 < new_limit)
    (habs : get_member s target = none) :
    update_spending_limit auth ow target new_limit s = .ok (false, s, []) :=
  update_eval_notfound auth ow target new_limit s hauth hown hpos habs

theorem update_absent_false_no_change_witness :
    update_spending_limit (fun _ => true) 0 2 7 state1 = .ok (false, state1, []) :=
  update_absent_false_no_change (fun _ => true) 0 2 7 state1 rfl rfl (by decide) rfl

/-- C8: a first initialization (no stored owner) by an authorizing caller
always succeeds and stores that owner together with an empty member map
and an empty ordered sequence, while initializing a state that already
stores an owner aborts with AlreadyInitialized whatever the owner
argument; an abort carries no post state, so the stored owner and members
are unchanged. -/
theorem init_once_semantics (auth auth2 : Address → Bool) (ow ow2 o0 : Address)
    (s t : WalletState)
    (hauth : auth ow = true) (hauth2 : auth2 ow2 = true)
    (hnone : s.owner = none) (hsome : t.owner = some o0) :
    initWallet auth ow s =
      .ok (true, WalletState.mk (some ow) (some []) (some []), []) ∧
    initWallet auth2 ow2 t = .error ContractError.AlreadyInitialized :=
  ⟨initWallet_eval_fresh auth ow s hauth hnone,
   initWallet_eval_again auth2 ow2 o0 t hauth2 hsome⟩

theorem init_once_semantics_witness :
    initWallet (fun _ => true) 0 emptyState =
      .ok (true, WalletState.mk (some 0) (some []) (some []), []) ∧
    initWallet (fun _ => true) 5 state0 = .error ContractError.AlreadyInitialized :=
  init_once_semantics (fun _ => true) (fun _ => true) 0 5 0 emptyState state0
    rfl rfl rfl rfl

/-- C9: in every state reachable by any sequence of the public operations
from the pristine state, every member stored in the members map has a
strictly positive spending limit; both mutators reject non-positive
limits before writing, so they preserve the invariant. -/
theorem reachable_spending_limits_positive (s : WalletState) (a : Address)
    (m : FamilyMember) (hreach : Reachable s) (hget : get_member s a = some m) :
    0 < m.spending_limit :=
  (reachable_walletInv s hreach).1 a m hget

theorem reachable_spending_limits_positive_witness : 0 < member1.spending_limit :=
  reachable_spending_limits_positive state1 1 member1 reachable_state1 rfl

/-- C10: on the pristine state where no storage slot was ever written (no
initialization has happened), the three reads return total values instead
of aborting: get_member is none for every address, get_all_members is the
empty list, and check_spending_limit is false for every address and
amount, because each read substitutes an empty map or sequence for the
missing slot. -/
theorem reads_total_on_uninitialized (address : Address) (amount : Int) :
    get_member emptyState address = none ∧
    get_all_members emptyState = [] ∧
    check_spending_limit emptyState address amount = false :=
  ⟨rfl, rfl, rfl⟩
